import Mathlib

/-!
Verification of the loop-nest scheduling engine (TensorIR schedule façade).

The Python file under verification is a thin wrapper: `_parse_seed` and
`_parse_error_render_level` are implemented in Python and are embedded
directly; the rewrite primitives (split, fuse, copy, trace replay,
sampling, compute_at) are implemented behind the FFI boundary, so they
are modelled from the specification text, as noted on each definition.
-/

namespace TVM

/-- Ceiling division on naturals, `ceil(a / b)`. -/
def ceilDiv (a b : Nat) : Nat := (a + b - 1) / b

/-- Combined outer-to-inner traversal indices of a loop nest with the given
extents: the flattened index `i₁·(e₂⋯eₙ) + i₂·(e₃⋯eₙ) + ⋯ + iₙ` visited in
lexicographic (outer-to-inner) order. -/
def nestIndices : List Nat → List Nat
  | [] => [0]
  | f :: fs => (List.range f).flatMap (fun i => (nestIndices fs).map (fun j => i * fs.prod + j))

/-- Outer-to-inner index tuples of a loop nest with the given extents,
in lexicographic traversal order. -/
def tuples : List Nat → List (List Nat)
  | [] => [[]]
  | e :: es => (List.range e).flatMap (fun i => (tuples es).map (fun t => i :: t))

/-- Recovery of the per-loop indices from a fused index by integer
division and modulo, as the fuse primitive rewrites the body. -/
def recover : List Nat → Nat → List Nat
  | [], _ => []
  | _ :: es, v => v / es.prod :: recover es (v % es.prod)

theorem range_bind_mul (f P : Nat) :
    (List.range f).flatMap (fun i => (List.range P).map (fun j => i * P + j)) =
      List.range (f * P) := by
  induction f with
  | zero => simp
  | succ f ih =>
    rw [List.range_succ, List.flatMap_append, ih, Nat.succ_mul, List.range_add]
    simp

theorem nestIndices_eq_range (fs : List Nat) : nestIndices fs = List.range fs.prod := by
  induction fs with
  | nil =>
    rw [nestIndices, List.prod_nil]
    decide
  | cons f fs ih =>
    rw [nestIndices, ih, range_bind_mul, List.prod_cons]

theorem range_filter_lt (e n : Nat) (h : e ≤ n) :
    (List.range n).filter (fun v => decide (v < e)) = List.range e := by
  obtain ⟨k, rfl⟩ := Nat.exists_eq_add_of_le h
  rw [List.range_add, List.filter_append]
  have h1 : (List.range e).filter (fun v => decide (v < e)) = List.range e := by
    apply List.filter_eq_self.mpr
    intro a ha
    simpa using List.mem_range.mp ha
  have h2 : ((List.range k).map (fun j => e + j)).filter (fun v => decide (v < e)) = [] := by
    apply List.filter_eq_nil_iff.mpr
    intro a ha
    rcases List.mem_map.mp ha with ⟨j, _, rfl⟩
    simp
  rw [h1, h2, List.append_nil]

theorem map_recover_range (es : List Nat) :
    (List.range es.prod).map (recover es) = tuples es := by
  induction es with
  | nil => simp [recover, tuples]
  | cons e es ih =>
    rw [tuples, List.prod_cons, ← range_bind_mul, List.map_flatMap]
    apply List.flatMap_congr
    intro i _
    rw [List.map_map]
    have step : ∀ j ∈ List.range es.prod,
        (recover (e :: es) ∘ fun j => i * es.prod + j) j =
          (fun t => i :: t) (recover es j) := by
      intro j hj
      have hjP : j < es.prod := List.mem_range.mp hj
      have hP : 0 < es.prod := Nat.lt_of_le_of_lt (Nat.zero_le j) hjP
      simp only [Function.comp, recover]
      have hdiv : (i * es.prod + j) / es.prod = i := by
        rw [Nat.mul_comm i es.prod, Nat.mul_add_div hP, Nat.div_eq_of_lt hjP, Nat.add_zero]
      have hmod : (i * es.prod + j) % es.prod = j := by
        rw [Nat.add_comm, Nat.add_mul_mod_self_right, Nat.mod_eq_of_lt hjP]
      rw [hdiv, hmod]
    rw [List.map_congr_left step, ← ih, List.map_map]
    rfl

/-- Number of unspecified (None) factors handed to split. -/
def noneCount (factors : List (Option Nat)) : Nat :=
  (factors.filter (fun f => f.isNone)).length

/-- Product of the specified factors handed to split. -/
def givenProd (factors : List (Option Nat)) : Nat :=
  (factors.filterMap id).prod

/-- Resolution of a split factor list: every None entry is replaced by the
inferred factor `ceil(extent / product(given factors))`. -/
def resolveFactors (extent : Nat) (factors : List (Option Nat)) : List Nat :=
  factors.map (fun f => f.getD (ceilDiv extent (givenProd factors)))

/-- Result of the split primitive: the nested loops it creates, outer to
inner, each with its extent, and whether a bounds guard was injected into
the body. -/
structure SplitResult where
  extents : List Nat
  guarded : Bool
  deriving Repr, DecidableEq

/-- Modelled from the spec: the split primitive of the Primitive Library
(its rewrite lives behind the FFI boundary and is absent from the Python
source). At most one factor may be unspecified, inferred as
`ceil(extent / product(given factors))`; split produces one nested loop per
factor, outer-to-inner, and injects a bounds guard in the body exactly when
the product of the factors exceeds the original extent. A factor list whose
resolved product falls short of the extent cannot keep the iteration order
unchanged, so it is rejected with the engine error. -/
def split (extent : Nat) (factors : List (Option Nat)) : Except String SplitResult :=
  if 1 < noneCount factors then
    .error "only one factor can be None"
  else if (resolveFactors extent factors).prod < extent then
    .error "the product of factors is smaller than the extent"
  else
    .ok ⟨resolveFactors extent factors, decide (extent < (resolveFactors extent factors).prod)⟩

/-- Sequence of original-loop indices the split nest traverses: the nest
enumerates its combined index outer-to-inner and the body runs only where
the bounds guard (when injected) passes. -/
def splitTraversal (extent : Nat) (r : SplitResult) : List Nat :=
  if r.guarded then
    (nestIndices r.extents).filter (fun v => decide (v < extent))
  else
    nestIndices r.extents

/-- A perfectly nested loop chain in the Program: the extents of the loops,
outer to inner, each loop starting at 0, and the innermost body, which
consumes the per-loop indices. The strict single-child chain shape and the
independence of the loop domains are inherent to this representation. -/
structure LoopChain (α : Type) where
  extents : List Nat
  body : List Nat → α

/-- Per-iteration effects of a loop chain, in traversal order. -/
def runChain {α : Type} (c : LoopChain α) : List α :=
  (tuples c.extents).map c.body

/-- Modelled from the spec: the fuse primitive of the Primitive Library
(its rewrite lives behind the FFI boundary and is absent from the Python
source). Fuse produces a single loop whose extent is the product of the
fused loops' extents, and rewrites the body to recover each original loop
index from the fused variable by integer division and modulo. -/
def fuse {α : Type} (c : LoopChain α) : LoopChain α :=
  ⟨[c.extents.prod], fun vs => c.body (recover c.extents (vs.headD 0))⟩

/-- Pairs of indices traversed by a two-deep loop nest of the given extents,
in the original (outer-to-inner, lexicographic) order. -/
def origPairs (e1 e2 : Nat) : List (Nat × Nat) :=
  (List.range e1).flatMap (fun i => (List.range e2).map (fun j => (i, j)))

/-- Round trip of the fuse-then-split property test: fuse two adjacent loops
of extents e1 and e2 (the fused body recovers the original pair as
`(v / e2, v % e2)`), then split the fused loop with factors `[e1, e2]` and
list the original index pairs the resulting nest visits in order. -/
def fuseSplitRoundTrip (e1 e2 : Nat) : Except String (List (Nat × Nat)) :=
  (split (e1 * e2) [some e1, some e2]).map
    (fun r => (splitTraversal (e1 * e2) r).map (fun v => (v / e2, v % e2)))

theorem map_divmod_range (e1 e2 : Nat) :
    (List.range (e1 * e2)).map (fun v => (v / e2, v % e2)) = origPairs e1 e2 := by
  rw [origPairs, ← range_bind_mul, List.map_flatMap]
  apply List.flatMap_congr
  intro i _
  rw [List.map_map]
  apply List.map_congr_left
  intro j hj
  have hjP : j < e2 := List.mem_range.mp hj
  have hP : 0 < e2 := Nat.lt_of_le_of_lt (Nat.zero_le j) hjP
  have hdiv : (i * e2 + j) / e2 = i := by
    rw [Nat.mul_comm i e2, Nat.mul_add_div hP, Nat.div_eq_of_lt hjP, Nat.add_zero]
  have hmod : (i * e2 + j) % e2 = j := by
    rw [Nat.add_comm, Nat.add_mul_mod_self_right, Nat.mod_eq_of_lt hjP]
  simp only [Function.comp, hdiv, hmod]

/-- C1: for every loop of known extent and every factor list with at most one
None entry (inferred as `ceil(extent / product(given factors))`), a successful
split produces one nested loop per factor, outer-to-inner with the given
(resp. inferred) extents, injects a bounds guard exactly when the product of
the factors exceeds the original extent, and the combined iteration order of
the new nest equals the original 0..extent traversal. -/
theorem split_spec (extent : Nat) (factors : List (Option Nat)) (r : SplitResult)
    (h : split extent factors = .ok r) :
    r.extents.length = factors.length ∧
    r.extents = resolveFactors extent factors ∧
    (r.guarded = true ↔ extent < r.extents.prod) ∧
    splitTraversal extent r = List.range extent := by
  rw [split] at h
  split_ifs at h with h1 h2
  have hr : r = ⟨resolveFactors extent factors, decide (extent < (resolveFactors extent factors).prod)⟩ :=
    ((Except.ok.injEq _ _).mp h).symm
  subst hr
  refine ⟨?_, rfl, by simp, ?_⟩
  · rw [resolveFactors, List.length_map]
  · rw [splitTraversal]
    by_cases hlt : extent < (resolveFactors extent factors).prod
    · rw [if_pos (by simpa using hlt), nestIndices_eq_range,
        range_filter_lt extent _ (Nat.le_of_lt hlt)]
    · rw [if_neg (by simpa using hlt), nestIndices_eq_range,
        Nat.le_antisymm (Nat.le_of_not_lt hlt) (Nat.le_of_not_lt h2)]

/-- Witness for C1 at the spec's own example: splitting a loop of extent 128
with factors [2, 64] yields loops of extents 2 and 64, no guard, and the
original 0..128 traversal. -/
theorem split_spec_witness :
    split 128 [some 2, some 64] = Except.ok ⟨[2, 64], false⟩ ∧
    (SplitResult.mk [2, 64] false).extents.length = ([some 2, some 64] : List (Option Nat)).length ∧
    (SplitResult.mk [2, 64] false).extents = resolveFactors 128 [some 2, some 64] ∧
    ((SplitResult.mk [2, 64] false).guarded = true ↔ 128 < (SplitResult.mk [2, 64] false).extents.prod) ∧
    splitTraversal 128 ⟨[2, 64], false⟩ = List.range 128 :=
  ⟨rfl, split_spec 128 [some 2, some 64] ⟨[2, 64], false⟩ rfl⟩

/-- C2: fusing a strict single-child chain of loops, each starting at 0 and
with independent domains (inherent to the LoopChain representation), yields a
single loop whose extent is the product of the extents, whose body recovers
the original indices by integer division and modulo, and whose traversal
produces the same per-iteration effects in the same order. -/
theorem fuse_spec {α : Type} (c : LoopChain α) :
    (fuse c).extents = [c.extents.prod] ∧ runChain (fuse c) = runChain c := by
  refine ⟨rfl, ?_⟩
  have h1 : tuples [c.extents.prod] = (List.range c.extents.prod).map (fun i => [i]) := by
    rw [tuples, List.map_eq_flatMap]
    apply List.flatMap_congr
    intro i _
    rfl
  simp only [runChain, fuse, h1, List.map_map]
  rw [← map_recover_range, List.map_map]
  rfl

/-- C3: for adjacent loops of extents e1 and e2 satisfying the fuse
preconditions (inherent to the model), fusing them and splitting the fused
loop with factors [e1, e2] yields a nest whose traversal of the original
index pairs equals the original nest's traversal. -/
theorem fuse_split_round_trip (e1 e2 : Nat) :
    fuseSplitRoundTrip e1 e2 = .ok (origPairs e1 e2) := by
  have hres : resolveFactors (e1 * e2) [some e1, some e2] = [e1, e2] := rfl
  have hprod : ([e1, e2] : List Nat).prod = e1 * e2 := by simp
  have hnc : ¬ (1 < noneCount [some e1, some e2]) := by
    rw [show noneCount [some e1, some e2] = 0 from rfl]
    decide
  have hsplit : split (e1 * e2) [some e1, some e2] = .ok ⟨[e1, e2], false⟩ := by
    rw [split, if_neg hnc]
    simp only [hres, hprod]
    rw [if_neg (lt_irrefl _), decide_eq_false (lt_irrefl _)]
  rw [fuseSplitRoundTrip, hsplit]
  simp only [Except.map]
  have htrav : splitTraversal (e1 * e2) ⟨[e1, e2], false⟩ = List.range (e1 * e2) := by
    rw [splitTraversal, if_neg (by simp), nestIndices_eq_range, hprod]
  rw [htrav, map_divmod_range]

/-- The schedule's random state. Modelled from the spec: the random
seed/state is an explicit field of Schedule State, so independent schedules
never interfere. -/
structure RNG where
  seed : Nat
  deriving Repr, DecidableEq

/-- Modelled from the spec: the Sampler's seeded decision generator (its
implementation is behind the FFI boundary). Drawing a value below n returns
the value and the advanced generator state (a linear congruential step). -/
def rngNext (g : RNG) (n : Nat) : Nat × RNG :=
  (g.seed % n, ⟨(g.seed * 1103515245 + 12345) % 2147483648⟩)

/-- Modelled from the spec: a Schedule State. The Program is a perfectly
nested loop chain, represented by its extents outer-to-inner; `samples`
records the values produced by sampling calls, and `rvTable` is the
Random-Variable Table mapping handle ids (list positions) to structural
index positions in the chain. -/
structure SchedObj where
  prog : List Nat
  samples : List Int
  rvTable : List Nat
  deriving Repr, DecidableEq

/-- A primitive invocation arriving at the schedule façade. -/
inductive SchedCall where
  | callSplit (idx : Nat) (factors : List (Option Nat))
  | callFuse (idx len : Nat)
  | callSample (candidates : List Int) (decision : Option Int)
  deriving Repr, DecidableEq

/-- A Trace record: the primitive invoked, its literal attributes, and the
resolved sampling decision where one was drawn or supplied. -/
inductive TraceRec where
  | recSplit (idx : Nat) (factors : List (Option Nat))
  | recFuse (idx len : Nat)
  | recSample (candidates : List Int) (decision : Int)
  deriving Repr, DecidableEq

/-- Split applied to the loop at position idx of the chain: the loop's
extent is replaced by the extents of the loops split produces. -/
def applySplit (p : List Nat) (idx : Nat) (factors : List (Option Nat)) :
    Except String (List Nat × SplitResult) :=
  match p[idx]? with
  | none => .error "the loop to split was not found"
  | some e =>
    match split e factors with
    | .error msg => .error msg
    | .ok r => .ok (p.take idx ++ r.extents ++ p.drop (idx + 1), r)

/-- Fuse applied to the chain segment of the given length starting at
position idx: the segment is replaced by one loop whose extent is the
product of the segment's extents. -/
def applyFuse (p : List Nat) (idx len : Nat) : Except String (List Nat) :=
  if 1 ≤ len ∧ idx + len ≤ p.length then
    .ok (p.take idx ++ [((p.drop idx).take len).prod] ++ p.drop (idx + len))
  else
    .error "the loops to fuse were not found"

/-- Modelled from the spec: one live primitive call against a Schedule
State (the engine behind the FFI boundary). The call validates, rewrites,
appends handles for new nodes, and yields the Trace record to append,
carrying the resolved sampling decision where one was drawn. -/
def stepE (c : SchedCall) (s : SchedObj) (g : RNG) :
    Except String (SchedObj × RNG × TraceRec × Option Nat) :=
  match c with
  | .callSplit idx factors =>
    match applySplit s.prog idx factors with
    | .error e => .error e
    | .ok (p', r) =>
      .ok ({ prog := p', samples := s.samples,
             rvTable := s.rvTable ++ (List.range r.extents.length).map (fun k => idx + k) },
           g, .recSplit idx factors, some s.rvTable.length)
  | .callFuse idx len =>
    match applyFuse s.prog idx len with
    | .error e => .error e
    | .ok p' =>
      .ok ({ prog := p', samples := s.samples, rvTable := s.rvTable ++ [idx] },
           g, .recFuse idx len, some s.rvTable.length)
  | .callSample cands dec =>
    match dec with
    | some d =>
      if d ∈ cands then
        .ok ({ s with samples := s.samples ++ [d] }, g, .recSample cands d, none)
      else
        .error "the decision is not among the candidates"
    | none =>
      match cands[(rngNext g cands.length).1]? with
      | some v =>
        .ok ({ s with samples := s.samples ++ [v] }, (rngNext g cands.length).2,
             .recSample cands v, none)
      | none => .error "the candidates must not be empty"

/-- Modelled from the spec: replay of one Trace record against a Schedule
State. It re-executes the recorded primitive using the recorded decision
and never draws new randomness: no generator state is consumed. -/
def replayStepE (t : TraceRec) (s : SchedObj) : Except String SchedObj :=
  match t with
  | .recSplit idx factors =>
    match applySplit s.prog idx factors with
    | .error e => .error e
    | .ok (p', r) =>
      .ok { prog := p', samples := s.samples,
            rvTable := s.rvTable ++ (List.range r.extents.length).map (fun k => idx + k) }
  | .recFuse idx len =>
    match applyFuse s.prog idx len with
    | .error e => .error e
    | .ok p' => .ok { prog := p', samples := s.samples, rvTable := s.rvTable ++ [idx] }
  | .recSample cands d =>
    if d ∈ cands then .ok { s with samples := s.samples ++ [d] }
    else .error "the recorded decision is not among the candidates"

/-- A live scheduling run: execute the calls in order, threading the random
state, and collect the Trace records in order. -/
def liveRun : List SchedCall → SchedObj → RNG → Except String (SchedObj × RNG × List TraceRec)
  | [], s, g => .ok (s, g, [])
  | c :: cs, s, g =>
    match stepE c s g with
    | .error e => .error e
    | .ok (s', g', t, _) =>
      match liveRun cs s' g' with
      | .error e => .error e
      | .ok (s'', g'', ts) => .ok (s'', g'', t :: ts)

/-- Replay of a full trace against a fresh Schedule State, consuming only
the recorded decisions. -/
def replayRun : List TraceRec → SchedObj → Except String SchedObj
  | [], s => .ok s
  | t :: ts, s =>
    match replayStepE t s with
    | .error e => .error e
    | .ok s' => replayRun ts s'

theorem replayStepE_of_stepE (c : SchedCall) (s : SchedObj) (g : RNG) (s' : SchedObj)
    (g' : RNG) (t : TraceRec) (h? : Option Nat)
    (h : stepE c s g = .ok (s', g', t, h?)) : replayStepE t s = .ok s' := by
  cases c with
  | callSplit idx factors =>
    simp only [stepE] at h
    cases happ : applySplit s.prog idx factors with
    | error e => rw [happ] at h; simp at h
    | ok pr =>
      obtain ⟨p', r⟩ := pr
      rw [happ] at h
      simp only [Except.ok.injEq, Prod.mk.injEq] at h
      obtain ⟨hs, _, ht, _⟩ := h
      subst hs
      subst ht
      simp only [replayStepE, happ]
  | callFuse idx len =>
    simp only [stepE] at h
    cases happ : applyFuse s.prog idx len with
    | error e => rw [happ] at h; simp at h
    | ok p' =>
      rw [happ] at h
      simp only [Except.ok.injEq, Prod.mk.injEq] at h
      obtain ⟨hs, _, ht, _⟩ := h
      subst hs
      subst ht
      simp only [replayStepE, happ]
  | callSample cands dec =>
    cases dec with
    | some d =>
      simp only [stepE] at h
      by_cases hd : d ∈ cands
      · rw [if_pos hd] at h
        simp only [Except.ok.injEq, Prod.mk.injEq] at h
        obtain ⟨hs, _, ht, _⟩ := h
        subst hs
        subst ht
        simp only [replayStepE, if_pos hd]
      · rw [if_neg hd] at h
        simp at h
    | none =>
      simp only [stepE] at h
      cases hv : cands[(rngNext g cands.length).1]? with
      | none => rw [hv] at h; simp at h
      | some v =>
        rw [hv] at h
        simp only [Except.ok.injEq, Prod.mk.injEq] at h
        obtain ⟨hs, _, ht, _⟩ := h
        subst hs
        subst ht
        have hmem : v ∈ cands := List.getElem?_mem hv
        simp only [replayStepE, if_pos hmem]

/-- C5: replaying the full ordered trace of a live run against a starting
Program structurally equal to the run's starting Program (equality in this
model), consuming the recorded decisions and drawing no new randomness
(replayRun takes no generator), reproduces a Schedule State structurally
equal to the live run's result. -/
theorem trace_replay_spec (cs : List SchedCall) (s s' : SchedObj) (g g' : RNG)
    (tr : List TraceRec) (h : liveRun cs s g = .ok (s', g', tr)) :
    replayRun tr s = .ok s' := by
  induction cs generalizing s g tr with
  | nil =>
    simp only [liveRun, Except.ok.injEq, Prod.mk.injEq] at h
    obtain ⟨hs, _, ht⟩ := h
    subst hs
    subst ht
    rfl
  | cons c cs ih =>
    simp only [liveRun] at h
    cases hstep : stepE c s g with
    | error e => rw [hstep] at h; simp at h
    | ok quad =>
      obtain ⟨s1, g1, t1, h1⟩ := quad
      rw [hstep] at h
      dsimp only at h
      cases hrest : liveRun cs s1 g1 with
      | error e => rw [hrest] at h; simp at h
      | ok trip =>
        obtain ⟨s2, g2, ts⟩ := trip
        rw [hrest] at h
        simp only [Except.ok.injEq, Prod.mk.injEq] at h
        obtain ⟨hs2, hg2, ht⟩ := h
        subst hs2
        subst hg2
        subst ht
        rw [replayRun, replayStepE_of_stepE c s g s1 g1 t1 h1 hstep]
        exact ih s1 g1 ts hrest

/-- Witness for C5: a concrete two-call run (a split, then a sampling call
drawing from the seeded generator) whose recorded trace replays to the same
Schedule State without the generator. -/
theorem trace_replay_spec_witness :
    replayRun [TraceRec.recSplit 0 [some 2, some 64], TraceRec.recSample [3, 5] 5]
        ⟨[128], [], []⟩ = Except.ok ⟨[2, 64], [5], [0, 1]⟩ :=
  trace_replay_spec
    [SchedCall.callSplit 0 [some 2, some 64], SchedCall.callSample [3, 5] none]
    ⟨[128], [], []⟩ ⟨[2, 64], [5], [0, 1]⟩ ⟨7⟩ ⟨1282168116⟩
    [TraceRec.recSplit 0 [some 2, some 64], TraceRec.recSample [3, 5] 5] rfl

/-- The collection of live schedule instances, addressed by id (list
position). Mutation of one schedule is an update of its entry only. -/
structure SchedUniverse where
  scheds : List SchedObj
  deriving Repr, DecidableEq

/-- Modelled from the spec: Schedule.copy (implemented behind the FFI
boundary). It deep-clones the Program and structural index and keeps every
RV handle, remapped by structural position, so a handle of the source
resolves in the copy to the structurally corresponding sref; the new
instance gets a fresh id and the source instance is untouched. -/
def copySched (u : SchedUniverse) (sid : Nat) : Option (SchedUniverse × Nat) :=
  match u.scheds[sid]? with
  | none => none
  | some obj => some (⟨u.scheds ++ [obj]⟩, u.scheds.length)

/-- Apply an arbitrary in-place mutation to the schedule with the given id,
leaving every other schedule's entry untouched. -/
def mutateSched (u : SchedUniverse) (sid : Nat) (f : SchedObj → SchedObj) : SchedUniverse :=
  match u.scheds[sid]? with
  | none => u
  | some obj => ⟨u.scheds.set sid (f obj)⟩

/-- Apply a sequence of mutations, each addressed to the same schedule id. -/
def applyMuts (fs : List (SchedObj → SchedObj)) (u : SchedUniverse) (sid : Nat) :
    SchedUniverse :=
  match fs with
  | [] => u
  | f :: fs => applyMuts fs (mutateSched u sid f) sid

/-- Resolution of an RV handle of a schedule: the handle id indexes the
RV table, whose entry is a structural position in that schedule's Program;
the resolved value is the extent stored there. A dangling handle resolves
to none, never to an arbitrary value. -/
def resolveRV (u : SchedUniverse) (sid rv : Nat) : Option Nat :=
  match u.scheds[sid]? with
  | none => none
  | some o =>
    match o.rvTable[rv]? with
    | none => none
    | some pos => o.prog[pos]?

theorem mutateSched_getElem_ne (u : SchedUniverse) (nid : Nat) (f : SchedObj → SchedObj)
    (sid : Nat) (hne : sid ≠ nid) :
    (mutateSched u nid f).scheds[sid]? = u.scheds[sid]? := by
  rw [mutateSched]
  cases u.scheds[nid]? with
  | none => rfl
  | some obj => exact List.getElem?_set_ne (fun hcon => hne hcon.symm)

theorem applyMuts_getElem_ne (fs : List (SchedObj → SchedObj)) (u : SchedUniverse)
    (nid sid : Nat) (hne : sid ≠ nid) :
    (applyMuts fs u nid).scheds[sid]? = u.scheds[sid]? := by
  induction fs generalizing u with
  | nil => rfl
  | cons f fs ih =>
    rw [applyMuts, ih (mutateSched u nid f), mutateSched_getElem_ne u nid f sid hne]

theorem resolveRV_congr (u v : SchedUniverse) (sid rv : Nat)
    (h : u.scheds[sid]? = v.scheds[sid]?) : resolveRV u sid rv = resolveRV v sid rv := by
  rw [resolveRV, resolveRV, h]

/-- C4: after copying a schedule, every sequence of mutations applied to the
copy leaves the original's entry (Program, samples, RV table) unchanged,
leaves every RV handle of the original resolving as before, and the copy
holds, for every handle of the original, a same-id handle resolving to the
structurally corresponding sref of the reconstructed tree (same structural
position in the cloned Program). -/
theorem copy_spec (u : SchedUniverse) (sid : Nat) (obj : SchedObj) (u2 : SchedUniverse)
    (nid : Nat) (fs : List (SchedObj → SchedObj)) (rv : Nat)
    (h1 : u.scheds[sid]? = some obj) (h2 : copySched u sid = some (u2, nid)) :
    (applyMuts fs u2 nid).scheds[sid]? = some obj ∧
    resolveRV (applyMuts fs u2 nid) sid rv = resolveRV u sid rv ∧
    u2.scheds[nid]? = some obj ∧
    resolveRV u2 nid rv = resolveRV u sid rv := by
  rw [copySched, h1] at h2
  simp only [Option.some.injEq, Prod.mk.injEq] at h2
  obtain ⟨hu2, hnid⟩ := h2
  subst hu2
  subst hnid
  have hsid : sid < u.scheds.length := by
    obtain ⟨hlt, _⟩ := List.getElem?_eq_some_iff.mp h1
    exact hlt
  have hne : sid ≠ u.scheds.length := Nat.ne_of_lt hsid
  have horig : (SchedUniverse.mk (u.scheds ++ [obj])).scheds[sid]? = some obj := by
    rw [show (SchedUniverse.mk (u.scheds ++ [obj])).scheds = u.scheds ++ [obj] from rfl,
      List.getElem?_append_left hsid, h1]
  have hmut : (applyMuts fs ⟨u.scheds ++ [obj]⟩ u.scheds.length).scheds[sid]? = some obj := by
    rw [applyMuts_getElem_ne fs ⟨u.scheds ++ [obj]⟩ u.scheds.length sid hne, horig]
  have hcopy : (SchedUniverse.mk (u.scheds ++ [obj])).scheds[u.scheds.length]? = some obj :=
    List.getElem?_concat_length u.scheds obj
  refine ⟨hmut, ?_, hcopy, ?_⟩
  · exact resolveRV_congr _ u sid rv (by rw [hmut, h1])
  · rw [resolveRV, resolveRV, hcopy, h1]

/-- Witness for C4: a concrete universe with one schedule; the copy is
mutated by clearing its Program, and the original's entry and handle
resolution survive intact. -/
theorem copy_spec_witness :
    (applyMuts [fun o => ⟨[], o.samples, o.rvTable⟩] ⟨[⟨[128], [], [0]⟩, ⟨[128], [], [0]⟩]⟩
        1).scheds[0]? = some ⟨[128], [], [0]⟩ ∧
    resolveRV (applyMuts [fun o => ⟨[], o.samples, o.rvTable⟩]
        ⟨[⟨[128], [], [0]⟩, ⟨[128], [], [0]⟩]⟩ 1) 0 0 =
      resolveRV ⟨[⟨[128], [], [0]⟩]⟩ 0 0 ∧
    (SchedUniverse.mk [⟨[128], [], [0]⟩, ⟨[128], [], [0]⟩]).scheds[1]? = some ⟨[128], [], [0]⟩ ∧
    resolveRV ⟨[⟨[128], [], [0]⟩, ⟨[128], [], [0]⟩]⟩ 1 0 = resolveRV ⟨[⟨[128], [], [0]⟩]⟩ 0 0 :=
  copy_spec ⟨[⟨[128], [], [0]⟩]⟩ 0 ⟨[128], [], [0]⟩ ⟨[⟨[128], [], [0]⟩, ⟨[128], [], [0]⟩]⟩ 1
    [fun o => ⟨[], o.samples, o.rvTable⟩] 0 rfl rfl

/-- Modelled from the spec: a primitive call against a schedule instance
(the engine behind the FFI boundary). Validation runs against the Schedule
State first; only if the whole rewrite succeeds is the new state committed
through Replace and a handle for new nodes returned, otherwise the engine
error is raised and nothing is committed. -/
def applyCall (u : SchedUniverse) (sid : Nat) (c : SchedCall) (g : RNG) :
    Except String (SchedUniverse × RNG × Option Nat) :=
  match u.scheds[sid]? with
  | none => .error "the schedule was not found"
  | some obj =>
    match stepE c obj g with
    | .error e => .error e
    | .ok (obj', g', _, h) => .ok (⟨u.scheds.set sid obj'⟩, g', h)

/-- The caller's view of a primitive call: on success the committed state
and the returned handle, on failure the caller's prior state with no new
handle. -/
def attemptCall (u : SchedUniverse) (sid : Nat) (c : SchedCall) (g : RNG) :
    SchedUniverse × RNG × Option Nat :=
  match applyCall u sid c g with
  | .ok res => res
  | .error _ => (u, g, none)

/-- C6: when a primitive call fails (the engine error is raised by a
precondition violation detected before or during Replace), the caller's
prior Program, structural index and RV handles are exactly as before the
call, and no new handle is returned: no partially-applied rewrite is
observable. -/
theorem primitive_failure_atomic (u : SchedUniverse) (sid : Nat) (c : SchedCall) (g : RNG)
    (e : String) (sid' rv : Nat) (h : applyCall u sid c g = .error e) :
    attemptCall u sid c g = (u, g, none) ∧
    (attemptCall u sid c g).1.scheds[sid']? = u.scheds[sid']? ∧
    resolveRV (attemptCall u sid c g).1 sid' rv = resolveRV u sid' rv := by
  have h1 : attemptCall u sid c g = (u, g, none) := by rw [attemptCall, h]
  exact ⟨h1, by rw [h1], by rw [h1]⟩

/-- Witness for C6: a concrete split call whose factor list carries two
None entries fails validation, and the caller's state is untouched. -/
theorem primitive_failure_atomic_witness :
    attemptCall ⟨[⟨[4], [], []⟩]⟩ 0 (SchedCall.callSplit 0 [none, none]) ⟨1⟩ =
      (⟨[⟨[4], [], []⟩]⟩, ⟨1⟩, none) ∧
    (attemptCall ⟨[⟨[4], [], []⟩]⟩ 0 (SchedCall.callSplit 0 [none, none])
        ⟨1⟩).1.scheds[0]? = (SchedUniverse.mk [⟨[4], [], []⟩]).scheds[0]? ∧
    resolveRV (attemptCall ⟨[⟨[4], [], []⟩]⟩ 0 (SchedCall.callSplit 0 [none, none]) ⟨1⟩).1 0 0 =
      resolveRV ⟨[⟨[4], [], []⟩]⟩ 0 0 :=
  primitive_failure_atomic ⟨[⟨[4], [], []⟩]⟩ 0 (SchedCall.callSplit 0 [none, none]) ⟨1⟩
    "only one factor can be None" 0 0 rfl

/-- Modelled from the spec: the Sampler's sample_categorical (implemented
behind the FFI boundary; the Python method forwards its arguments). If a
decision is supplied it is validated to be one of the candidates and
returned as is, touching no randomness; only otherwise is a draw made from
the distribution defined by probs (validated non-negative and index-aligned
with candidates) using the schedule's seeded generator. -/
def sample_categorical (candidates : List Int) (probs : List Rat) (decision : Option Int)
    (g : RNG) : Except String (Int × RNG) :=
  match decision with
  | some d =>
    if d ∈ candidates then .ok (d, g)
    else .error "the decision is not among the candidates"
  | none =>
    if probs.length = candidates.length ∧ ∀ p ∈ probs, 0 ≤ p then
      match candidates[(rngNext g candidates.length).1]? with
      | some v => .ok (v, (rngNext g candidates.length).2)
      | none => .error "the candidates must not be empty"
    else .error "probs must be non-negative and aligned with the candidates"

/-- C7: with a supplied decision d, sample_categorical validates that d is
among the candidates and returns exactly d with the generator untouched;
the outcome is the same for every seed, and the decision path never draws:
success (with value d and unchanged generator) holds precisely when d is a
candidate, for every pair of generator states. -/
theorem sample_categorical_decision_spec (candidates : List Int) (probs : List Rat)
    (d : Int) (g g2 : RNG) :
    ((sample_categorical candidates probs (some d) g = .ok (d, g)) ↔ d ∈ candidates) ∧
    (sample_categorical candidates probs (some d) g).map Prod.fst =
      (sample_categorical candidates probs (some d) g2).map Prod.fst := by
  by_cases hd : d ∈ candidates
  · constructor
    · simp [sample_categorical, hd]
    · simp [sample_categorical, hd, Except.map]
  · constructor
    · simp [sample_categorical, hd]
    · simp [sample_categorical, hd, Except.map]

/-- Classification of a block within a scope, as the dataflow-compactness
precondition requires. -/
inductive BlockKind where
  | complete
  | reduction
  | other
  deriving Repr, DecidableEq

/-- The facts about the Schedule State that compute_at's validation
consults: whether block and loop share a scope, whether the loop is already
an ancestor of the block, the kinds of the blocks in the scope's subtree
containing the block, the leaf blocks of the scope, the block itself, its
consumers, and the blocks lying under the given loop. -/
structure ComputeAtInput where
  sharesScope : Bool
  loopIsAncestor : Bool
  subtreeKinds : List BlockKind
  scopeLeaves : List Nat
  blockId : Nat
  consumers : List Nat
  blocksUnderLoop : List Nat
  deriving Repr, DecidableEq

/-- A subtree is dataflow-compact when every block in it is a complete or a
reduction block. -/
def dataflowCompact (ks : List BlockKind) : Bool :=
  ks.all (fun k => k == BlockKind.complete || k == BlockKind.reduction)

/-- Modelled from the spec: compute_at's precondition validation (the
engine behind the FFI boundary). The checks run in the spec's stated order
and the engine error names the first violated precondition: block and loop
share a scope with the loop not already an ancestor, the scope's subtree
containing the block is dataflow-compact, the block is not the sole leaf of
its scope, and all consumers of the block lie under the given loop. -/
def compute_at_check (inp : ComputeAtInput) : Except String Unit :=
  if ¬ (inp.sharesScope = true ∧ inp.loopIsAncestor = false) then
    .error "the block and the loop must share a scope, the loop not an ancestor of the block"
  else if ¬ dataflowCompact inp.subtreeKinds = true then
    .error "the subtree containing the block is not dataflow-compact"
  else if inp.scopeLeaves = [inp.blockId] then
    .error "the block is the sole leaf of its scope"
  else if ¬ inp.consumers.all (fun c => decide (c ∈ inp.blocksUnderLoop)) = true then
    .error "a consumer of the block does not lie under the given loop"
  else .ok ()

/-- C8: compute_at raises the engine error whenever the block is the sole
leaf of its scope or some consumer of the block does not lie under the
given loop, naming the first violated precondition; it succeeds only when
the block is not the sole leaf, the containing subtree is dataflow-compact,
and all consumers lie under the loop (alongside the scope-sharing check the
spec also states). -/
theorem compute_at_check_spec (inp : ComputeAtInput) :
    (compute_at_check inp = .ok () ↔
      (inp.sharesScope = true ∧ inp.loopIsAncestor = false ∧
        dataflowCompact inp.subtreeKinds = true ∧ ¬ inp.scopeLeaves = [inp.blockId] ∧
        inp.consumers.all (fun c => decide (c ∈ inp.blocksUnderLoop)) = true)) ∧
    ((inp.scopeLeaves = [inp.blockId] ∨
        inp.consumers.all (fun c => decide (c ∈ inp.blocksUnderLoop)) = false) →
      ¬ compute_at_check inp = .ok ()) ∧
    (inp.sharesScope = true → inp.loopIsAncestor = false →
      dataflowCompact inp.subtreeKinds = true → inp.scopeLeaves = [inp.blockId] →
      compute_at_check inp = .error "the block is the sole leaf of its scope") := by
  have hiff : compute_at_check inp = .ok () ↔
      (inp.sharesScope = true ∧ inp.loopIsAncestor = false ∧
        dataflowCompact inp.subtreeKinds = true ∧ ¬ inp.scopeLeaves = [inp.blockId] ∧
        inp.consumers.all (fun c => decide (c ∈ inp.blocksUnderLoop)) = true) := by
    rw [compute_at_check]
    split_ifs with h1 h2 h3 h4 <;> simp_all
  refine ⟨hiff, ?_, ?_⟩
  · intro hbad hok
    obtain ⟨_, _, _, hns, hall⟩ := hiff.mp hok
    cases hbad with
    | inl hsole => exact hns hsole
    | inr hcons => rw [hall] at hcons; exact absurd hcons (by simp)
  · intro hshare hanc hcompact hsole
    rw [compute_at_check, if_neg (by rw [hshare, hanc]; simp), if_neg (by rw [hcompact]; simp),
      if_pos hsole]

/-- Witness for C8 at a concrete Schedule State: the block is the sole leaf
of its scope, every earlier check passes, and compute_at raises the engine
error naming that precondition. -/
theorem compute_at_check_spec_witness :
    compute_at_check ⟨true, false, [BlockKind.complete], [3], 3, [], []⟩ =
      .error "the block is the sole leaf of its scope" :=
  (compute_at_check_spec ⟨true, false, [BlockKind.complete], [3], 3, [], []⟩).2.2
    rfl rfl rfl rfl

/-- A Python-level error raised by the constructor's argument parsing. -/
inductive PyError where
  | valueError (msg : String)
  | typeError (msg : String)
  deriving Repr, DecidableEq

/-- The ERROR_RENDER_LEVEL table of the source: the mapping from the
error_render_level strings to the internal integer levels. -/
def ERROR_RENDER_LEVEL : List (String × Nat) := [("detail", 0), ("fast", 1), ("none", 2)]

/-- The message parse_error_render_level raises for an unrecognized
string. -/
def renderLevelErrMsg (s : String) : String :=
  "error_render_level can be \"detail\", \"fast\", or \"none\", but got: " ++ s

/-- Embedding of the source's parse_error_render_level: membership in the
ERROR_RENDER_LEVEL table is checked and the mapped level returned; any
other string raises ValueError. -/
def parse_error_render_level (error_render_level : String) : Except PyError Nat :=
  match ERROR_RENDER_LEVEL.lookup error_render_level with
  | some v => .ok v
  | none => .error (.valueError (renderLevelErrMsg error_render_level))

/-- The seed argument as Python receives it: None, an integer, or a value
of any other type. -/
inductive PySeedArg where
  | noneArg
  | intArg (n : Int)
  | nonIntArg
  deriving Repr, DecidableEq

/-- The message parse_seed raises for an out-of-range integer seed. -/
def seedRangeErrMsg : String := "seed must be in the range [1, 2147483647]"

/-- Embedding of the source's parse_seed: None becomes -1; a non-integer
raises TypeError; an integer below 1 or above 2147483647 raises
ValueError. -/
def parse_seed : PySeedArg → Except PyError Int
  | .noneArg => .ok (-1)
  | .nonIntArg => .error (.typeError "Expected seed to be int or None")
  | .intArg n =>
    if n < 1 ∨ 2147483647 < n then .error (.valueError seedRangeErrMsg)
    else .ok n

/-- The constructed underlying schedule object, holding the parsed
arguments. -/
structure ScheduleHandle where
  seedVal : Int
  errorRenderLevel : Nat
  deriving Repr, DecidableEq

/-- Embedding of the argument parsing of the Schedule constructor: the
arguments are parsed (seed before error_render_level, matching Python's
argument evaluation order) before the underlying schedule object is
constructed, so a parse error means no object is ever created. -/
def schedule_init (seed : PySeedArg) (error_render_level : String) :
    Except PyError ScheduleHandle :=
  match parse_seed seed with
  | .error e => .error e
  | .ok sd =>
    match parse_error_render_level error_render_level with
    | .error e => .error e
    | .ok lvl => .ok ⟨sd, lvl⟩

/-- C9: constructing a Schedule with error_render_level among detail, fast,
none succeeds and maps the string to the internal level 0, 1, 2
respectively; any other string raises ValueError and the underlying
schedule object is never created. -/
theorem error_render_level_spec (s : String)
    (h : ¬ (s = "detail" ∨ s = "fast" ∨ s = "none")) :
    parse_error_render_level "detail" = .ok 0 ∧
    parse_error_render_level "fast" = .ok 1 ∧
    parse_error_render_level "none" = .ok 2 ∧
    schedule_init .noneArg "detail" = .ok ⟨-1, 0⟩ ∧
    schedule_init .noneArg "fast" = .ok ⟨-1, 1⟩ ∧
    schedule_init .noneArg "none" = .ok ⟨-1, 2⟩ ∧
    parse_error_render_level s = .error (.valueError (renderLevelErrMsg s)) ∧
    schedule_init .noneArg s = .error (.valueError (renderLevelErrMsg s)) := by
  push_neg at h
  obtain ⟨h1, h2, h3⟩ := h
  have hlook : ERROR_RENDER_LEVEL.lookup s = none := by
    rw [ERROR_RENDER_LEVEL]
    simp only [List.lookup]
    rw [show (s == "detail") = false by simpa using h1,
      show (s == "fast") = false by simpa using h2,
      show (s == "none") = false by simpa using h3]
  have hparse : parse_error_render_level s = .error (.valueError (renderLevelErrMsg s)) := by
    rw [parse_error_render_level, hlook]
  refine ⟨rfl, rfl, rfl, rfl, rfl, rfl, hparse, ?_⟩
  rw [schedule_init]
  simp only [parse_seed]
  rw [hparse]

/-- Witness for C9 at the concrete string "verbose": the three valid levels
map to 0, 1, 2 and the invalid string is rejected with ValueError before
any schedule object exists. -/
theorem error_render_level_spec_witness :
    parse_error_render_level "detail" = .ok 0 ∧
    parse_error_render_level "fast" = .ok 1 ∧
    parse_error_render_level "none" = .ok 2 ∧
    schedule_init .noneArg "detail" = .ok ⟨-1, 0⟩ ∧
    schedule_init .noneArg "fast" = .ok ⟨-1, 1⟩ ∧
    schedule_init .noneArg "none" = .ok ⟨-1, 2⟩ ∧
    parse_error_render_level "verbose" = .error (.valueError (renderLevelErrMsg "verbose")) ∧
    schedule_init .noneArg "verbose" = .error (.valueError (renderLevelErrMsg "verbose")) :=
  error_render_level_spec "verbose" (by decide)

/-- C10: at construction, a seed of None is converted to -1 and accepted; a
non-integer seed raises TypeError; an integer seed raises ValueError
exactly when it lies outside [1, 2147483647] and is accepted unchanged
otherwise; in particular seed = -1 passed explicitly is rejected with
ValueError, although the constructor's docstring says -1 means use device
random. -/
theorem parse_seed_spec (n : Int) :
    parse_seed .noneArg = .ok (-1) ∧
    parse_seed .nonIntArg = .error (.typeError "Expected seed to be int or None") ∧
    ((parse_seed (.intArg n) = .error (.valueError seedRangeErrMsg)) ↔
      (n < 1 ∨ 2147483647 < n)) ∧
    (¬ (n < 1 ∨ 2147483647 < n) → parse_seed (.intArg n) = .ok n) ∧
    parse_seed (.intArg (-1)) = .error (.valueError seedRangeErrMsg) := by
  refine ⟨rfl, rfl, ?_, ?_, rfl⟩
  · rw [parse_seed]
    split_ifs with hr
    · simp [hr]
    · simp [hr]
  · intro hr
    rw [parse_seed, if_neg hr]

end TVM
